import Mathlib

/-!
Verification of the NewsScrapper backend (Python) against its specification.

The Python modules are shallowly embedded as Lean definitions:
* strings are Lean `String`s; the `re` word-boundary patterns used by the
  classifier are literal lowercase words joined by `\s+`, so a compiled pattern
  is modelled as its list of literal words and `re.IGNORECASE` as matching
  against the lowercased text (all pattern literals are ASCII lowercase);
* Python `float` scores are modelled as rationals (`ℚ`); the properties proved
  about them (sign, capping) are arithmetic facts robust under this change;
* dictionaries holding feed entries are modelled as a structure `Entry` whose
  classification fields start out empty and are filled by the pipeline;
* wall-clock instants are rationals passed explicitly to the functions that
  call `time.time()` / `datetime.now()`;
* fallible operations return `Except`/`Option`, and the on-disk artifacts
  (cache records, the alerts snapshot) are explicit values threaded through.
-/

namespace NewsScraper

/-! ### Word-boundary pattern matching (`re` usage of the classifier)

Every regex compiled by `AdvancedContentFilter` has the shape
`\bw1\s+w2...\b` with lowercase ASCII literal words `wi`; such a pattern is
represented by the list `[w1, w2, ...]`.  `\w` is `[A-Za-z0-9_]` on the ASCII
texts considered here. -/

def isWordChar (c : Char) : Bool := c.isAlphanum || c = '_'

/-- Match a literal word at the head of the character list, returning the
remainder on success. -/
def matchLit : List Char → List Char → Option (List Char)
  | [], s => some s
  | _ :: _, [] => none
  | c :: cs, d :: s => if c = d then matchLit cs s else none

/-- Consume one or more whitespace characters (regex `\s+`, greedy; the next
pattern character is always a word character, so maximal munch is exact). -/
def spaces1 : List Char → Option (List Char)
  | [] => none
  | c :: s => if c.isWhitespace then some (s.dropWhile Char.isWhitespace) else none

/-- The position at the head of the list is a word boundary for a match that
just ended with a word character: end of text or a non-word character. -/
def atBoundary : List Char → Bool
  | [] => true
  | c :: _ => !isWordChar c

/-- Match the words of a pattern (joined by `\s+`) at the head of `s`,
checking the trailing `\b`; returns the remainder on success. -/
def matchWords : List String → List Char → Option (List Char)
  | [], s => some s
  | [w], s =>
    match matchLit w.toList s with
    | none => none
    | some r => if atBoundary r then some r else none
  | w :: w2 :: ws, s =>
    match matchLit w.toList s with
    | none => none
    | some r =>
      match spaces1 r with
      | none => none
      | some r2 => matchWords (w2 :: ws) r2

/-- `re.search`: try each position left to right.  `prevW` tracks whether the
character before the current position is a word character (so the leading `\b`
holds exactly when `prevW` is false, every pattern starting with a word
character).  Returns the matched text. -/
def searchFrom (ws : List String) : Bool → List Char → Option (List Char)
  | _, [] => none
  | prevW, c :: s =>
    if prevW then searchFrom ws (isWordChar c) s
    else
      match matchWords ws (c :: s) with
      | some r => some ((c :: s).take ((c :: s).length - r.length))
      | none => searchFrom ws (isWordChar c) s

/-- Python `str.lower()` on the ASCII texts considered: lowercase each
character. -/
def pyLower (s : String) : String := String.mk (s.toList.map Char.toLower)

/-- Case-insensitive search of a pattern in `content`: the pattern literals are
lowercase, so `re.IGNORECASE` is modelled by searching the lowercased text. -/
def patSearch (ws : List String) (content : String) : Option (List Char) :=
  searchFrom ws false (pyLower content).toList

/-- `re.findall` match count: non-overlapping matches, scanning left to right
and resuming after each match (whose last character is a word character).  The
fuel starts at the length of the text, enough because every pattern of the
repository consumes at least one character per match. -/
def countFrom (ws : List String) : Nat → Bool → List Char → Nat
  | 0, _, _ => 0
  | _ + 1, _, [] => 0
  | fuel + 1, prevW, c :: s =>
    if prevW then countFrom ws fuel (isWordChar c) s
    else
      match matchWords ws (c :: s) with
      | some r => 1 + countFrom ws fuel true r
      | none => countFrom ws fuel (isWordChar c) s

def patCount (ws : List String) (content : String) : Nat :=
  countFrom ws (pyLower content).toList.length false (pyLower content).toList

/-- Python substring containment `sub in s` over character lists. -/
def listContains (sub : List Char) : List Char → Bool
  | [] => sub.isEmpty
  | c :: s => sub.isPrefixOf (c :: s) || listContains sub s

/-- Python `sub in s` on strings (used on already-lowercased text). -/
def strContains (s sub : String) : Bool := listContains sub.toList s.toList

/-! ### Configuration data (config/settings.py and the classifier tables) -/

/-- SECURITY_KEYWORDS of config/settings.py. -/
def SECURITY_KEYWORDS : List String :=
  ["stabbing", "knife", "attack", "assault", "murder", "homicide",
   "protest", "demonstration", "riot", "unrest", "disorder",
   "terror", "terrorism", "bomb", "explosion", "fire",
   "shooting", "gun", "firearm", "weapon",
   "emergency", "evacuation", "lockdown", "alert",
   "crime", "criminal", "arrest", "police", "officer",
   "incident", "accident", "collision", "crash"]

/-- The five weighted category regex families built in
`AdvancedContentFilter.__init__` (`self.security_patterns`, insertion order
preserved); each regex is encoded as its list of literal words. -/
def security_patterns : List (String × List (List String)) :=
  [("violent_crime",
    [["stabbing"], ["knife", "attack"], ["assault"], ["murder"],
     ["homicide"], ["shooting"], ["gun", "crime"], ["weapon"]]),
   ("public_disorder",
    [["protest"], ["demonstration"], ["riot"], ["unrest"],
     ["disorder"], ["disturbance"], ["clash"], ["confrontation"]]),
   ("terrorism",
    [["terror"], ["terrorism"], ["bomb"], ["explosion"],
     ["threat"], ["alert"], ["security", "alert"]]),
   ("emergency",
    [["emergency"], ["evacuation"], ["lockdown"], ["alert"],
     ["incident"], ["accident"], ["collision"], ["crash"]]),
   ("police_activity",
    [["arrest"], ["police", "operation"], ["officer"], ["detective"],
     ["investigation"], ["appeal"], ["witness"]])]

/-- `self.context_words` of `AdvancedContentFilter.__init__`. -/
def context_words : List (String × List String) :=
  [("london",
    ["london", "greater london", "central london", "south london",
     "east london", "north london", "west london"]),
   ("urgency", ["urgent", "immediate", "breaking", "latest", "developing"]),
   ("severity", ["serious", "major", "significant", "critical", "severe"])]

/-! ### AdvancedContentFilter -/

/-- `AdvancedContentFilter.contains_security_keywords`. -/
def contains_security_keywords (content : String) : Bool :=
  if content = "" then false
  else
    SECURITY_KEYWORDS.any (fun kw => (patSearch [kw] content).isSome) ||
    security_patterns.any (fun cp => cp.2.any fun p => (patSearch p content).isSome)

/-- First-occurrence deduplication with an explicit seen set. -/
def dedupByKey {α : Type} (key : α → String) : List String → List α → List α
  | _, [] => []
  | seen, a :: rest =>
    if key a ∈ seen then dedupByKey key seen rest
    else a :: dedupByKey key (key a :: seen) rest

/-- `AdvancedContentFilter.get_matched_keywords`.  The final `list(set(...))`
has unspecified order in Python; it is modelled as first-occurrence
deduplication — only membership and emptiness are relied upon.  The text of a
pattern match is taken from the lowercased content, which is exactly
`match.group(0).lower()` for these ASCII patterns. -/
def get_matched_keywords (content : String) : List String :=
  if content = "" then []
  else
    let fromKeywords := SECURITY_KEYWORDS.filter fun kw => (patSearch [kw] content).isSome
    let fromPatterns := security_patterns.flatMap fun cp =>
      cp.2.filterMap fun p => (patSearch p content).map fun m => String.mk m
    dedupByKey id [] (fromKeywords ++ fromPatterns)

/-- Python `max(d, key=d.get)` over an association list in insertion order:
keeps the running maximum, replacing it only on a strictly greater value, so
the first key attaining the maximum wins. -/
def pyMaxGo (k : String) (v : Nat) : List (String × Nat) → String × Nat
  | [] => (k, v)
  | (q, w) :: rest => if w > v then pyMaxGo q w rest else pyMaxGo k v rest

def pyMaxKey : List (String × Nat) → Option String
  | [] => none
  | (k, v) :: rest => some (pyMaxGo k v rest).1

/-- The `category_scores` dict built by `get_security_category`: per category,
the total `findall` hit count of its patterns. -/
def category_scores (content : String) : List (String × Nat) :=
  security_patterns.map fun cp => (cp.1, (cp.2.map fun p => patCount p content).sum)

/-- `AdvancedContentFilter.get_security_category`.  `category_scores` is built
over all five categories, so it is never empty and the `max` branch is taken
for every non-empty content. -/
def get_security_category (content : String) : String :=
  if content = "" then "unknown"
  else
    match pyMaxKey (category_scores content) with
    | some c => c
    | none => "unknown"

/-- `score += min(keyword_matches * 0.2, 0.6)` of `calculate_relevance_score`. -/
def keywordBase (content : String) : ℚ :=
  min (((get_matched_keywords content).length : ℚ) * (2 / 10)) (6 / 10)

/-- The context-word loop of `calculate_relevance_score`: `0.1` once per
context type with a word contained (plain substring test) in the lowercased
content. -/
def contextBonus (content : String) : ℚ :=
  ((context_words.filter fun cw =>
    cw.2.any fun w => strContains (pyLower content) w).length : ℚ) * (1 / 10)

/-- `score += 0.2` when the assigned category is not "unknown". -/
def categoryBonus (content : String) : ℚ :=
  if get_security_category content ≠ "unknown" then 2 / 10 else 0

/-- `score += 0.1` when `len(content) > 100`. -/
def lengthBonus (content : String) : ℚ :=
  if 100 < content.length then 1 / 10 else 0

/-- `AdvancedContentFilter.calculate_relevance_score` (floats as rationals):
the sum of the four score contributions, capped at 1.0. -/
def calculate_relevance_score (content : String) : ℚ :=
  if content = "" then 0
  else
    min (keywordBase content + contextBonus content + categoryBonus content +
      lengthBonus content) 1

/-! ### Entries and the filtering pipeline -/

/-- One feed entry dict.  The feed adapters always populate the first seven
fields; the classification and location fields are filled by the pipeline and
start out empty.  `published` holds the ISO-8601 rendering of the parsed
datetime. -/
structure Entry where
  title : String
  link : String
  description : String
  content : String
  published : String
  source : String
  type : String
  matched_keywords : List String
  security_category : String
  relevance_score : ℚ
  location : Option String
  lat : Option ℚ
  lon : Option ℚ
deriving DecidableEq, Repr

/-- `AdvancedContentFilter.filter_entries`.  `list.sort(key=..., reverse=True)`
is a stable descending sort by relevance score. -/
def filter_entries (entries : List Entry) (min_relevance : ℚ) : List Entry :=
  let filtered := entries.filterMap fun e =>
    let combined := e.title ++ " " ++ e.content
    if contains_security_keywords combined then
      let score := calculate_relevance_score combined
      if min_relevance ≤ score then
        some { e with matched_keywords := get_matched_keywords combined,
                      security_category := get_security_category combined,
                      relevance_score := score }
      else none
    else none
  filtered.insertionSort fun a b => b.relevance_score ≤ a.relevance_score

/-! ### CacheManager (utils/cache_manager.py)

One JSON file per key under the cache directory, modelled as an association
list.  The md5 key derivation `_get_cache_key` is injective on the inputs the
program uses and is modelled as the url itself; `datetime.now()` is the
explicit `now` argument. -/

structure CacheRecord (α : Type) where
  data : α
  timestamp : ℚ
  ttl : ℚ
deriving DecidableEq, Repr

structure CacheManager (α : Type) where
  default_ttl : ℚ
  store : List (String × CacheRecord α)
deriving DecidableEq, Repr

def CacheManager.lookupRec {α : Type} (cm : CacheManager α) (url : String) :
    Option (CacheRecord α) :=
  (cm.store.find? fun kv => kv.1 = url).map Prod.snd

/-- `CacheManager.delete`: remove the cache file for the key. -/
def CacheManager.delete {α : Type} (cm : CacheManager α) (url : String) : CacheManager α :=
  { cm with store := cm.store.filter fun kv => kv.1 ≠ url }

/-- `CacheManager.get`: absent file yields None; a record is expired when
`now - timestamp > ttl` (a `timedelta` comparison), in which case the file is
deleted and None returned; otherwise the payload is returned. -/
def CacheManager.get {α : Type} (cm : CacheManager α) (url : String) (now : ℚ) :
    Option α × CacheManager α :=
  match cm.lookupRec url with
  | none => (none, cm)
  | some r =>
    if now - r.timestamp > r.ttl then (none, cm.delete url)
    else (some r.data, cm)

/-- `CacheManager.set`: unconditional overwrite; the stored ttl is
`ttl or self.default_ttl`, so a missing — or zero, zero being falsy — ttl
falls back to the default. -/
def CacheManager.set {α : Type} (cm : CacheManager α) (url : String) (data : α)
    (ttl : Option ℚ) (now : ℚ) : CacheManager α :=
  let t := match ttl with
    | none => cm.default_ttl
    | some v => if v = 0 then cm.default_ttl else v
  { cm with store := (url, ⟨data, now, t⟩) :: (cm.store.filter fun kv => kv.1 ≠ url) }

/-! ### save_alerts (utils/file_handler.py)

`save_alerts` opens the snapshot with mode "w" — truncating it in place — and
then `json.dump` streams the serialized text into it; every exception is
caught and reported as False.  The snapshot file is `Option (List Char)`
(`none` = absent) and the possible fates of one call are enumerated by
`WriteOutcome`: success, a failure before the file is opened (e.g. makedirs),
or an exception after `k` characters of the dump were written. -/

inductive WriteOutcome
  | success
  | failBeforeOpen
  | failDuring (k : Nat)
deriving DecidableEq, Repr

def save_alerts (text : List Char) (file : Option (List Char)) :
    WriteOutcome → Bool × Option (List Char)
  | .success => (true, some text)
  | .failBeforeOpen => (false, file)
  | .failDuring k => (false, some (text.take k))

/-! ### Retry wrapper (utils/rate_limiter.py, retry_on_failure)

The wrapped callable is a function from the attempt index to its outcome, the
jitter sample `random.uniform(0, 0.1 * delay)` of each attempt is the function
`jitter`, and the result carries the performed sleeps and the number of
invocations.  `retryGo attempt k` runs the attempts `attempt, …, attempt + k`
(`k` retries remaining after the current attempt), matching
`for attempt in range(max_retries + 1)`. -/

def retryGo {ε α : Type} (base_delay max_delay : ℚ) (exponential_backoff : Bool)
    (f : Nat → Except ε α) (jitter : Nat → ℚ) :
    Nat → Nat → Except ε α × List ℚ × Nat
  | attempt, 0 => (f attempt, [], 1)
  | attempt, k + 1 =>
    match f attempt with
    | .ok a => (.ok a, [], 1)
    | .error _ =>
      let delay := if exponential_backoff
        then min (base_delay * 2 ^ attempt) max_delay else base_delay
      let total_delay := delay + jitter attempt
      let r := retryGo base_delay max_delay exponential_backoff f jitter (attempt + 1) k
      (r.1, total_delay :: r.2.1, r.2.2 + 1)

def retry_on_failure {ε α : Type} (max_retries : Nat) (base_delay max_delay : ℚ)
    (exponential_backoff : Bool) (f : Nat → Except ε α) (jitter : Nat → ℚ) :
    Except ε α × List ℚ × Nat :=
  retryGo base_delay max_delay exponential_backoff f jitter 0 max_retries

/-! ### RateLimiter (utils/rate_limiter.py)

`time.time()` instants are rationals given explicitly; `time.sleep(d)` makes
the next instant `now + d`.  `wait_if_needed` returns the new state together
with the instant at which the request is recorded. -/

structure RateLimiter where
  max_requests : Nat
  time_window : ℚ
  requests : List ℚ
deriving DecidableEq, Repr

/-- `RateLimiter.can_request`: prunes requests that left the window (mutating
the list) and compares against the maximum. -/
def RateLimiter.can_request (rl : RateLimiter) (now : ℚ) : Bool × RateLimiter :=
  let reqs := rl.requests.filter fun t => now - t < rl.time_window
  (reqs.length < rl.max_requests, { rl with requests := reqs })

def RateLimiter.record_request (rl : RateLimiter) (now : ℚ) : RateLimiter :=
  { rl with requests := rl.requests ++ [now] }

/-- `RateLimiter.wait_if_needed`: when the window is full it sleeps the fixed
interval `time_window / max_requests` once, then records unconditionally. -/
def RateLimiter.wait_if_needed (rl : RateLimiter) (now : ℚ) : RateLimiter × ℚ :=
  let c := rl.can_request now
  if c.1 then (c.2.record_request now, now)
  else
    let wait := rl.time_window / (rl.max_requests : ℚ)
    (c.2.record_request (now + wait), now + wait)

/-- Requests recorded inside the half-open window `[t, t + w)`. -/
def requestsWithin (reqs : List ℚ) (t w : ℚ) : Nat :=
  (reqs.filter fun r => decide (t ≤ r) && decide (r < t + w)).length

/-! ### LocationMatcher (processors/location_matcher.py)

The gazetteer `LONDON_LOCATIONS` (config/locations.py) is configuration data
and is a parameter `gaz`; its keys are lowercase names.  The layered
extraction heuristics (`extract_location_from_entry` with its regex
strategies) are abstracted as the parameter `extract` — the claims below
concern only how their result is handled, never which name they produce. -/

/-- `LocationMatcher.get_coordinates`: dictionary lookup of the lowercased
name; a missing name raises ValueError (modelled as `Except.error`) instead of
falling back to default coordinates. -/
def get_coordinates (gaz : List (String × ℚ × ℚ)) (location_name : String) :
    Except String (ℚ × ℚ) :=
  match (gaz.find? fun kv => kv.1 = pyLower location_name).map Prod.snd with
  | some c => .ok c
  | none => .error ("Location " ++ location_name ++ " not found in database")

/-- The loop body of `LocationMatcher.process_entries` for one entry: a
ValueError from `get_coordinates`, like an absent location, sets all three of
location, lat and lon to None. -/
def locateEntry (gaz : List (String × ℚ × ℚ)) (extract : Entry → Option String)
    (e : Entry) : Entry :=
  match extract e with
  | some name =>
    match get_coordinates gaz name with
    | .ok c => { e with location := some name, lat := some c.1, lon := some c.2 }
    | .error _ => { e with location := none, lat := none, lon := none }
  | none => { e with location := none, lat := none, lon := none }

/-- `LocationMatcher.process_entries`. -/
def locationProcessEntries (gaz : List (String × ℚ × ℚ))
    (extract : Entry → Option String) (entries : List Entry) : List Entry :=
  entries.map (locateEntry gaz extract)

/-! ### AlertFormatter (processors/alert_formatter.py) -/

structure Alert where
  type : String
  location : Option String
  time : String
  lat : Option ℚ
  lon : Option ℚ
  title : String
  link : String
  source : String
  description : String
  matched_keywords : List String
deriving DecidableEq, Repr

/-- `self.alert_types` of `AlertFormatter.__init__`. -/
def alert_types : List (String × String) :=
  [("police", "crime"), ("news", "news"), ("government", "emergency")]

/-- `AlertFormatter.format_entry_to_alert`.  `entry.get('published',
datetime.now()).isoformat()` is the stored ISO string (`published` is always
set by the feed adapters). -/
def format_entry_to_alert (e : Entry) : Alert :=
  { type := ((alert_types.find? fun kv => kv.1 = e.type).map Prod.snd).getD "news"
    location := e.location
    time := e.published
    lat := e.lat
    lon := e.lon
    title := e.title
    link := e.link
    source := e.source
    description := e.description
    matched_keywords := e.matched_keywords }

/-- `AlertFormatter.format_alerts` (`format_entry_to_alert` raises on no input
of this model, so the per-entry try/except never skips). -/
def format_alerts (entries : List Entry) : List Alert :=
  entries.map format_entry_to_alert

/-- The deduplication key `f"{alert.get('title', '')}_{alert.get('location', '')}"`:
the location key is present — with value None for location-less alerts — so
`.get` returns None and the f-string renders it as the four characters
"None". -/
def dedupKey (a : Alert) : String :=
  a.title ++ "_" ++ (match a.location with | none => "None" | some s => s)

/-- `AlertFormatter.deduplicate_alerts`: first occurrence of each key wins. -/
def deduplicate_alerts (alerts : List Alert) : List Alert :=
  dedupByKey dedupKey [] alerts

/-- `AlertFormatter.sort_alerts_by_time`: stable descending sort by the time
string (string comparison raises nothing here, so the except branch is
dead). -/
def sort_alerts_by_time (alerts : List Alert) : List Alert :=
  alerts.insertionSort fun a b => b.time ≤ a.time

/-! ### Orchestrator (main.py)

`NewsScraper.process_entries` and `run_single_cycle` with the advanced filter.
The JSON serializer of the final dump is abstracted as `dump` (only the write
mechanics matter to the claims); the third component of the result records
whether `save_alerts` was invoked at all during the cycle. -/

def processEntriesMain (gaz : List (String × ℚ × ℚ)) (extract : Entry → Option String)
    (entries : List Entry) : List Alert :=
  if entries = [] then []
  else
    let filtered := filter_entries entries (3 / 10)
    if filtered = [] then []
    else
      sort_alerts_by_time (deduplicate_alerts (format_alerts
        (locationProcessEntries gaz extract filtered)))

def run_single_cycle (gaz : List (String × ℚ × ℚ)) (extract : Entry → Option String)
    (dump : List Alert → List Char) (entries : List Entry)
    (file : Option (List Char)) (out : WriteOutcome) :
    Bool × Option (List Char) × Bool :=
  if entries = [] then (true, file, false)
  else
    let alerts := processEntriesMain gaz extract entries
    if alerts = [] then (true, file, false)
    else
      let s := save_alerts (dump alerts) file out
      (s.1, s.2, true)

/-! ### Definitions taken from the specification's wording (for refinement
comparisons) and concrete values used by witnesses and counterexamples -/

/-- Modelled from the spec's wording of the deduplication key,
`title + "_" + (location or "")`: Python `or` replaces a falsy location —
`None` or the empty string — by `""`, which `Option.getD ""` renders
exactly.  To be compared against the implementation's `dedupKey`. -/
def specDedupKey (a : Alert) : String := a.title ++ "_" ++ a.location.getD ""

/-- True when no pattern of any of the five categories occurs in the
content. -/
def noCategoryPatternMatches (content : String) : Bool :=
  security_patterns.all fun cp => cp.2.all fun p => (patSearch p content).isNone

/-- A concrete raw entry whose combined text contains the keyword
"stabbing". -/
def wEntry1 : Entry :=
  ⟨"stabbing reported", "", "", "", "", "bbc", "news", [], "", 0, none, none, none⟩

/-- What the advanced filter makes of `wEntry1`: one matched keyword, category
violent_crime, score 0.2 + 0.2 = 0.4. -/
def wEntry1out : Entry :=
  { wEntry1 with
      matched_keywords := ["stabbing"],
      security_category := "violent_crime",
      relevance_score := 2 / 5 }

/-- A cache manager holding one record written at instant 0 with ttl 1. -/
def cmBoundary : CacheManager Bool := ⟨300, [("u", ⟨true, 0, 1⟩)]⟩

/-- A wrapped operation failing on the first two attempts and succeeding on
the third. -/
def wRetryF : Nat → Except Nat Nat := fun i => if i < 2 then .error i else .ok 7

/-- A fresh rate limiter allowing 2 requests per 60-second window. -/
def rlim0 : RateLimiter := ⟨2, 60, []⟩

/-- Alert with the location field set to None. -/
def cexAlert1 : Alert := ⟨"news", none, "", none, none, "x", "", "", "", []⟩

/-- Alert with the same title and the location field set to the empty
string. -/
def cexAlert2 : Alert := ⟨"news", some "", "", none, none, "x", "", "", "", []⟩

/-! ## Helper lemmas -/

theorem keywordBase_nonneg (content : String) : 0 ≤ keywordBase content :=
  le_min (by positivity) (by norm_num)

theorem contextBonus_nonneg (content : String) : 0 ≤ contextBonus content := by
  unfold contextBonus; positivity

theorem categoryBonus_nonneg (content : String) : 0 ≤ categoryBonus content := by
  unfold categoryBonus; split <;> norm_num

theorem lengthBonus_nonneg (content : String) : 0 ≤ lengthBonus content := by
  unfold lengthBonus; split <;> norm_num

theorem calculate_relevance_score_nonneg (content : String) :
    0 ≤ calculate_relevance_score content := by
  unfold calculate_relevance_score
  split
  · exact le_refl 0
  · refine le_min ?_ (by norm_num)
    have h1 := keywordBase_nonneg content
    have h2 := contextBonus_nonneg content
    have h3 := categoryBonus_nonneg content
    have h4 := lengthBonus_nonneg content
    linarith

theorem calculate_relevance_score_le_one (content : String) :
    calculate_relevance_score content ≤ 1 := by
  unfold calculate_relevance_score
  split
  · norm_num
  · exact min_le_right _ _

/-- The classification record attached to a kept entry. -/
theorem mem_filter_entries {e : Entry} {entries : List Entry} {minr : ℚ}
    (h : e ∈ filter_entries entries minr) :
    ∃ e0 ∈ entries,
      contains_security_keywords (e0.title ++ " " ++ e0.content) = true ∧
      minr ≤ calculate_relevance_score (e0.title ++ " " ++ e0.content) ∧
      e = { e0 with
              matched_keywords := get_matched_keywords (e0.title ++ " " ++ e0.content),
              security_category := get_security_category (e0.title ++ " " ++ e0.content),
              relevance_score := calculate_relevance_score (e0.title ++ " " ++ e0.content) } := by
  unfold filter_entries at h
  rw [(List.perm_insertionSort _ _).mem_iff, List.mem_filterMap] at h
  obtain ⟨e0, he0, hf⟩ := h
  refine ⟨e0, he0, ?_⟩
  by_cases hc : contains_security_keywords (e0.title ++ " " ++ e0.content) = true
  · rw [if_pos hc] at hf
    by_cases hm : minr ≤ calculate_relevance_score (e0.title ++ " " ++ e0.content)
    · rw [if_pos hm] at hf
      exact ⟨hc, hm, (Option.some_injective _ hf).symm⟩
    · rw [if_neg hm] at hf
      exact absurd hf (by simp)
  · rw [if_neg hc] at hf
    exact absurd hf (by simp)

theorem dedupByKey_ne_nil {α : Type} (key : α → String) {l : List α} (h : l ≠ []) :
    dedupByKey key [] l ≠ [] := by
  match l with
  | [] => exact absurd rfl h
  | a :: rest => simp [dedupByKey]

/-- Whenever `contains_security_keywords` fires, at least one keyword or one
pattern match is collected by `get_matched_keywords`. -/
theorem contains_implies_matched_ne_nil {content : String}
    (h : contains_security_keywords content = true) :
    get_matched_keywords content ≠ [] := by
  unfold contains_security_keywords at h
  by_cases hc : content = ""
  · rw [if_pos hc] at h; exact absurd h (by simp)
  · rw [if_neg hc] at h
    unfold get_matched_keywords
    rw [if_neg hc]
    apply dedupByKey_ne_nil
    rcases Bool.or_eq_true_iff.mp h with hkw | hpat
    · obtain ⟨kw, hmem, hs⟩ := List.any_eq_true.mp hkw
      have : kw ∈ SECURITY_KEYWORDS.filter fun kw => (patSearch [kw] content).isSome :=
        List.mem_filter.mpr ⟨hmem, hs⟩
      intro hnil
      rw [List.append_eq_nil] at hnil
      rw [hnil.1] at this
      exact absurd this (List.not_mem_nil _)
    · obtain ⟨cp, hcp, hs⟩ := List.any_eq_true.mp hpat
      obtain ⟨p, hp, hps⟩ := List.any_eq_true.mp hs
      obtain ⟨m, hm⟩ := Option.isSome_iff_exists.mp hps
      have : String.mk m ∈ security_patterns.flatMap fun cp =>
          cp.2.filterMap fun p => (patSearch p content).map fun m => String.mk m := by
        rw [List.mem_flatMap]
        exact ⟨cp, hcp, List.mem_filterMap.mpr ⟨p, hp, by rw [hm]; rfl⟩⟩
      intro hnil
      rw [List.append_eq_nil] at hnil
      rw [hnil.2] at this
      exact absurd this (List.not_mem_nil _)

theorem wEntry1_score : calculate_relevance_score "stabbing reported " = 2 / 5 := by
  have hk : get_matched_keywords "stabbing reported " = ["stabbing"] := by decide
  have hctx : (context_words.filter fun cw =>
      cw.2.any fun w => strContains (pyLower "stabbing reported ") w) = [] := by decide
  have hcat : get_security_category "stabbing reported " = "violent_crime" := by decide
  rw [calculate_relevance_score, if_neg (by decide), keywordBase, hk, contextBonus, hctx,
    categoryBonus, hcat, if_pos (by decide), lengthBonus, if_neg (by decide)]
  norm_num

theorem filter_entries_wEntry1 : filter_entries [wEntry1] (3 / 10) = [wEntry1out] := by
  have hcomb : wEntry1.title ++ " " ++ wEntry1.content = "stabbing reported " := by decide
  have hc : contains_security_keywords "stabbing reported " = true := by decide
  have hk : get_matched_keywords "stabbing reported " = ["stabbing"] := by decide
  have hcat : get_security_category "stabbing reported " = "violent_crime" := by decide
  simp only [filter_entries, List.filterMap_cons, List.filterMap_nil, hcomb, hc,
    wEntry1_score, hk, hcat, if_true]
  rw [if_pos (by norm_num)]
  simp [List.insertionSort, List.orderedInsert, wEntry1out]

theorem wEntry1out_mem : wEntry1out ∈ filter_entries [wEntry1] (3 / 10) := by
  rw [filter_entries_wEntry1]
  exact List.mem_singleton.mpr rfl

theorem pyMaxGo_le (rest : List (String × Nat)) : ∀ k v, v ≤ (pyMaxGo k v rest).2 := by
  induction rest with
  | nil => intro k v; simp [pyMaxGo]
  | cons p rest ih =>
    intro k v
    obtain ⟨q, w⟩ := p
    simp only [pyMaxGo]
    split
    · exact le_of_lt (Nat.lt_of_lt_of_le (by assumption) (ih q w))
    · exact ih k v

/-- `pyMaxGo k v rest` is the first pair of `(k, v) :: rest` attaining the
maximal value: every pair before it is strictly smaller, every pair after it
is not larger. -/
theorem pyMaxGo_first_argmax (rest : List (String × Nat)) :
    ∀ k v, ∃ l1 l2, (k, v) :: rest = l1 ++ pyMaxGo k v rest :: l2 ∧
      (∀ p ∈ l1, p.2 < (pyMaxGo k v rest).2) ∧
      (∀ p ∈ l2, p.2 ≤ (pyMaxGo k v rest).2) := by
  induction rest with
  | nil =>
    intro k v
    exact ⟨[], [], by simp [pyMaxGo], by simp, by simp⟩
  | cons p rest ih =>
    intro k v
    obtain ⟨q, w⟩ := p
    simp only [pyMaxGo]
    split
    · rename_i hvw
      obtain ⟨l1, l2, heq, h1, h2⟩ := ih q w
      refine ⟨(k, v) :: l1, l2, by rw [List.cons_append, ← heq], ?_, h2⟩
      intro p hp
      rcases List.mem_cons.mp hp with hp | hp
      · rw [hp]
        exact Nat.lt_of_lt_of_le hvw (pyMaxGo_le rest q w)
      · exact h1 p hp
    · rename_i hvw
      have hwv : w ≤ v := Nat.le_of_not_lt hvw
      obtain ⟨l1, l2, heq, h1, h2⟩ := ih k v
      cases l1 with
      | nil =>
        rw [List.nil_append] at heq
        injection heq with hm hrest
        refine ⟨[], (q, w) :: l2, by rw [List.nil_append, ← hm, ← hrest], by simp, ?_⟩
        intro p hp
        rcases List.mem_cons.mp hp with hp | hp
        · rw [hp, ← hm]; exact hwv
        · exact h2 p hp
      | cons x l1t =>
        rw [List.cons_append] at heq
        injection heq with hx hrest
        have hx : x = (k, v) := hx.symm
        have hrest : rest = l1t ++ pyMaxGo k v rest :: l2 := hrest
        refine ⟨(k, v) :: (q, w) :: l1t, l2, by rw [List.cons_append, List.cons_append, ← hrest],
          ?_, h2⟩
        intro p hp
        have hkv : v < (pyMaxGo k v rest).2 := by
          have := h1 x (List.mem_cons_self x l1t)
          rw [hx] at this
          exact this
        rcases List.mem_cons.mp hp with hp | hp
        · rw [hp]; exact hkv
        · rcases List.mem_cons.mp hp with hp | hp
          · rw [hp]; exact Nat.lt_of_le_of_lt hwv hkv
          · exact h1 p (List.mem_cons_of_mem x hp)

/-- For non-empty content the assigned category is the first argmax of the
per-category scores, which are listed in the enumeration order of the five
categories. -/
theorem get_security_category_first_argmax {content : String} (h : content ≠ "") :
    ∃ l1 l2 v, category_scores content = l1 ++ (get_security_category content, v) :: l2 ∧
      (∀ p ∈ l1, p.2 < v) ∧ (∀ p ∈ l2, p.2 ≤ v) := by
  cases hcs : category_scores content with
  | nil => exact absurd hcs (by simp [category_scores, security_patterns])
  | cons c rest =>
    obtain ⟨k0, v0⟩ := c
    have hcat : get_security_category content = (pyMaxGo k0 v0 rest).1 := by
      rw [get_security_category, if_neg h, hcs]
      rfl
    obtain ⟨l1, l2, heq, h1, h2⟩ := pyMaxGo_first_argmax rest k0 v0
    refine ⟨l1, l2, (pyMaxGo k0 v0 rest).2, ?_, h1, h2⟩
    rw [hcat, Prod.mk.eta]
    exact heq

/-! ## Claims -/

/-- C1: for every content string the relevance score computed by the advanced
classifier lies in [0, 1], and every entry kept by `filter_entries` carries a
relevance score in [0, 1]. -/
theorem claim_C1_relevance_score_unit_interval :
    (∀ content : String,
      0 ≤ calculate_relevance_score content ∧ calculate_relevance_score content ≤ 1) ∧
    (∀ (entries : List Entry) (minr : ℚ) (e : Entry), e ∈ filter_entries entries minr →
      0 ≤ e.relevance_score ∧ e.relevance_score ≤ 1) := by
  constructor
  · exact fun c => ⟨calculate_relevance_score_nonneg c, calculate_relevance_score_le_one c⟩
  · intro entries minr e he
    obtain ⟨e0, _, _, _, heq⟩ := mem_filter_entries he
    rw [heq]
    exact ⟨calculate_relevance_score_nonneg _, calculate_relevance_score_le_one _⟩

/-- Witness for C1: the concrete entry kept from `[wEntry1]` has its score in
[0, 1]. -/
theorem claim_C1_witness :
    0 ≤ wEntry1out.relevance_score ∧ wEntry1out.relevance_score ≤ 1 :=
  claim_C1_relevance_score_unit_interval.2 [wEntry1] (3 / 10) wEntry1out wEntry1out_mem

/-- C9: `contains_security_keywords` returning true implies
`get_matched_keywords` returns at least one keyword, and every entry in the
list returned by `filter_entries` carries a non-empty matched_keywords
list. -/
theorem claim_C9_matched_keywords_nonempty :
    (∀ content : String, contains_security_keywords content = true →
      get_matched_keywords content ≠ []) ∧
    (∀ (entries : List Entry) (minr : ℚ) (e : Entry), e ∈ filter_entries entries minr →
      e.matched_keywords ≠ []) := by
  constructor
  · exact fun c h => contains_implies_matched_ne_nil h
  · intro entries minr e he
    obtain ⟨e0, _, hc, _, heq⟩ := mem_filter_entries he
    rw [heq]
    exact contains_implies_matched_ne_nil hc

/-- Witness for C9: on the content "stabbing" the keyword check fires and the
matched-keyword list is non-empty. -/
theorem claim_C9_witness : get_matched_keywords "stabbing" ≠ [] :=
  claim_C9_matched_keywords_nonempty.1 "stabbing" (by decide)

/-- C2 (amended): `get_security_category` assigns the first category — in the
enumeration order violent_crime, public_disorder, terrorism, emergency,
police_activity — whose regex family attains the maximal hit count; it
returns "unknown" only for empty content.  (For non-empty content with no
hits at all, every category scores 0 and the first one, violent_crime, is
returned — not "unknown".) -/
theorem claim_C2_category_argmax (content : String) :
    ((category_scores content).map Prod.fst =
      ["violent_crime", "public_disorder", "terrorism", "emergency", "police_activity"]) ∧
    (content = "" → get_security_category content = "unknown") ∧
    (content ≠ "" → ∃ l1 l2 v,
      category_scores content = l1 ++ (get_security_category content, v) :: l2 ∧
      (∀ p ∈ l1, p.2 < v) ∧ (∀ p ∈ l2, p.2 ≤ v)) := by
  refine ⟨by simp [category_scores, security_patterns], ?_, ?_⟩
  · intro h
    simp [get_security_category, h]
  · exact fun h => get_security_category_first_argmax h

/-- Witness for C2: on "terror alert" the assigned category heads a first-argmax
decomposition of the score list. -/
theorem claim_C2_witness :
    ∃ l1 l2 v, category_scores "terror alert" =
        l1 ++ (get_security_category "terror alert", v) :: l2 ∧
      (∀ p ∈ l1, p.2 < v) ∧ (∀ p ∈ l2, p.2 ≤ v) :=
  (claim_C2_category_argmax "terror alert").2.2 (by decide)

/-- Counterexample for C2 as stated: on the non-empty content "hello" no
category pattern matches, yet the function returns "violent_crime", not
"unknown". -/
theorem claim_C2_counterexample :
    noCategoryPatternMatches "hello" = true ∧
    get_security_category "hello" = "violent_crime" ∧
    get_security_category "hello" ≠ "unknown" :=
  ⟨by decide, by decide, by decide⟩

theorem lookupRec_delete {α : Type} (cm : CacheManager α) (url : String) :
    (cm.delete url).lookupRec url = none := by
  simp only [CacheManager.delete, CacheManager.lookupRec]
  rw [show ∀ o : Option (String × CacheRecord α), o.map Prod.snd = none ↔ o = none from
    fun o => Option.map_eq_none', List.find?_eq_none]
  intro kv hkv
  have := (List.mem_filter.mp hkv).2
  simp only [decide_eq_true_eq] at this
  simp [this]

theorem lookupRec_set {α : Type} (cm : CacheManager α) (url : String) (data : α)
    (ttl : Option ℚ) (now : ℚ) :
    (cm.set url data ttl now).lookupRec url =
      some ⟨data, now,
        match ttl with
        | none => cm.default_ttl
        | some v => if v = 0 then cm.default_ttl else v⟩ := by
  simp [CacheManager.set, CacheManager.lookupRec, List.find?]

/-- C3 (amended): `get` returns the stored payload iff
`now - stored_time ≤ ttl` (the code expires strictly: `now - stored > ttl`),
otherwise it evicts the record and returns absent; a `set` with ttl = 1
followed by an immediate `get` returns the data, and once more than the ttl
has elapsed `get` returns absent and the record is evicted. -/
theorem claim_C3_cache_ttl {α : Type} :
    (∀ (cm : CacheManager α) (url : String) (now : ℚ) (r : CacheRecord α),
      cm.lookupRec url = some r →
        (now - r.timestamp ≤ r.ttl → cm.get url now = (some r.data, cm)) ∧
        (r.ttl < now - r.timestamp →
          cm.get url now = (none, cm.delete url) ∧
          (cm.delete url).lookupRec url = none)) ∧
    (∀ (cm : CacheManager α) (url : String) (data : α) (t : ℚ),
      ((cm.set url data (some 1) t).get url t).1 = some data) ∧
    (∀ (cm : CacheManager α) (url : String) (data : α) (t d : ℚ), 1 < d →
      ((cm.set url data (some 1) t).get url (t + d)).1 = none ∧
      ((cm.set url data (some 1) t).get url (t + d)).2.lookupRec url = none) := by
  have hget : ∀ (cm : CacheManager α) (url : String) (now : ℚ) (r : CacheRecord α),
      cm.lookupRec url = some r →
      cm.get url now =
        if now - r.timestamp > r.ttl then (none, cm.delete url) else (some r.data, cm) := by
    intro cm url now r hr
    simp [CacheManager.get, hr]
  refine ⟨?_, ?_, ?_⟩
  · intro cm url now r hr
    constructor
    · intro hle
      rw [hget cm url now r hr, if_neg (not_lt.mpr hle)]
    · intro hgt
      exact ⟨by rw [hget cm url now r hr, if_pos hgt], lookupRec_delete cm url⟩
  · intro cm url data t
    have hr := lookupRec_set cm url data (some 1) t
    simp only [one_ne_zero, if_false] at hr
    rw [hget _ url t _ hr, if_neg (by norm_num)]
  · intro cm url data t d hd
    have hr := lookupRec_set cm url data (some 1) t
    simp only [one_ne_zero, if_false] at hr
    have hcond : (t + d) - t > (1 : ℚ) := by
      rw [add_sub_cancel_left]
      exact hd
    rw [hget _ url (t + d) _ hr, if_pos hcond]
    exact ⟨rfl, lookupRec_delete _ url⟩

/-- Witness for C3: the record of `cmBoundary` (written at instant 0, ttl 1)
is still served at instant 0. -/
theorem claim_C3_witness : cmBoundary.get "u" 0 = (some true, cmBoundary) :=
  ((@claim_C3_cache_ttl Bool).1 cmBoundary "u" 0 ⟨true, 0, 1⟩ rfl).1 (by norm_num)

/-- Counterexample for C3 as stated: at `now = 1` the record written at 0 with
ttl 1 does not satisfy `now - stored_time < ttl`, yet `get` still returns the
payload (the code only expires on a strict `>` comparison). -/
theorem claim_C3_counterexample :
    ¬ ((1 : ℚ) - 0 < 1) ∧ (cmBoundary.get "u" 1).1 = some true := by
  constructor
  · norm_num
  · have : cmBoundary.lookupRec "u" = some ⟨true, 0, 1⟩ := rfl
    simp only [CacheManager.get, this]
    rw [if_neg (by norm_num)]

/-- C4 (amended): `save_alerts` reports failure (False) exactly on the failing
outcomes and success leaves exactly the new serialized text; but the write is
an in-place truncate-then-stream, so after a mid-write failure the snapshot
holds a prefix of the new text — the previous snapshot is only guaranteed
untouched when the failure happens before the file is opened. -/
theorem claim_C4_save_alerts (text : List Char) (file : Option (List Char))
    (out : WriteOutcome) :
    ((save_alerts text file out).1 = true ↔ out = .success) ∧
    (out ≠ .success → (save_alerts text file out).1 = false) ∧
    ((save_alerts text file out).1 = true → (save_alerts text file out).2 = some text) ∧
    ((save_alerts text file out).2 = file ∨
      ∃ k, (save_alerts text file out).2 = some (text.take k)) := by
  cases out with
  | success =>
    exact ⟨by simp [save_alerts], by simp, by simp [save_alerts],
      Or.inr ⟨text.length, by simp [save_alerts]⟩⟩
  | failBeforeOpen =>
    exact ⟨by simp [save_alerts], by simp [save_alerts], by simp [save_alerts], Or.inl rfl⟩
  | failDuring k =>
    exact ⟨by simp [save_alerts], by simp [save_alerts], by simp [save_alerts],
      Or.inr ⟨k, rfl⟩⟩

/-- Witness for C4: a successful save writes exactly the new text. -/
theorem claim_C4_witness :
    (save_alerts ("[]".toList) (some ("OLD".toList)) .success).2 = some ("[]".toList) :=
  (claim_C4_save_alerts ("[]".toList) (some ("OLD".toList)) .success).2.2.1 rfl

theorem retryGo_spec {ε α : Type} (base maxd : ℚ) (expb : Bool) (f : Nat → Except ε α)
    (jitter : Nat → ℚ) :
    ∀ (k attempt : Nat),
      (retryGo base maxd expb f jitter attempt k).2.2 =
        (retryGo base maxd expb f jitter attempt k).2.1.length + 1 ∧
      (retryGo base maxd expb f jitter attempt k).2.1.length ≤ k ∧
      (retryGo base maxd expb f jitter attempt k).2.1 =
        (List.range (retryGo base maxd expb f jitter attempt k).2.1.length).map
          (fun i => (if expb then min (base * 2 ^ (attempt + i)) maxd else base) +
            jitter (attempt + i)) ∧
      (∀ e, (retryGo base maxd expb f jitter attempt k).1 = .error e →
        (retryGo base maxd expb f jitter attempt k).2.1.length = k ∧
        f (attempt + k) = .error e) := by
  intro k
  induction k with
  | zero =>
    intro attempt
    refine ⟨rfl, Nat.le_refl 0, by simp [retryGo], ?_⟩
    intro e he
    simp only [retryGo] at he
    exact ⟨rfl, by rw [Nat.add_zero]; exact he⟩
  | succ k ih =>
    intro attempt
    cases hf : f attempt with
    | ok a =>
      simp only [retryGo, hf]
      exact ⟨rfl, by simp, by simp, fun e he => by simp at he⟩
    | error e0 =>
      obtain ⟨ih1, ih2, ih3, ih4⟩ := ih (attempt + 1)
      simp only [retryGo, hf]
      refine ⟨by simp [ih1], by simpa using Nat.succ_le_succ ih2, ?_, ?_⟩
      · simp only [List.length_cons]
        rw [List.range_succ_eq_map, List.map_cons, List.map_map]
        rw [Nat.add_zero]
        congr 1
        rw [ih3]
        simp only [List.length_map, List.length_range]
        apply List.map_congr_left
        intro i hi
        simp only [Function.comp_apply, Nat.succ_eq_add_one]
        rw [show attempt + (i + 1) = attempt + 1 + i by omega]
      · intro e he
        obtain ⟨hlen, hfe⟩ := ih4 e he
        refine ⟨by simp [hlen], ?_⟩
        rw [show attempt + (k + 1) = attempt + 1 + k by omega]
        exact hfe

/-- C5: the retry wrapper invokes the wrapped operation at most
`max_retries + 1` times; the i-th backoff sleep equals
`min(base_delay * 2^i, max_delay)` plus the sampled jitter — which, bounded by
10 percent of the capped delay, keeps each sleep within [delay, 1.1 * delay];
an error result means all `max_retries + 1` attempts ran and the last failure
is re-raised; and an operation failing twice then succeeding, with
`max_retries = 3`, returns the success value after exactly two sleeps and
three invocations. -/
theorem claim_C5_retry_backoff {ε α : Type} (mr : Nat) (base maxd : ℚ)
    (f : Nat → Except ε α) (jitter : Nat → ℚ) :
    (retry_on_failure mr base maxd true f jitter).2.2 ≤ mr + 1 ∧
    ((retry_on_failure mr base maxd true f jitter).2.1 =
      (List.range (retry_on_failure mr base maxd true f jitter).2.1.length).map
        (fun i => min (base * 2 ^ i) maxd + jitter i)) ∧
    ((∀ i, 0 ≤ jitter i ∧ 10 * jitter i ≤ min (base * 2 ^ i) maxd) →
      ∀ (i : Nat) (hi : i < (retry_on_failure mr base maxd true f jitter).2.1.length),
        min (base * 2 ^ i) maxd ≤ (retry_on_failure mr base maxd true f jitter).2.1.get ⟨i, hi⟩ ∧
        10 * (retry_on_failure mr base maxd true f jitter).2.1.get ⟨i, hi⟩ ≤
          11 * min (base * 2 ^ i) maxd) ∧
    (∀ e, (retry_on_failure mr base maxd true f jitter).1 = .error e →
      (retry_on_failure mr base maxd true f jitter).2.2 = mr + 1 ∧ f mr = .error e) ∧
    (mr = 3 → ∀ (e0 e1 : ε) (v : α), f 0 = .error e0 → f 1 = .error e1 → f 2 = .ok v →
      (retry_on_failure mr base maxd true f jitter).1 = .ok v ∧
      (retry_on_failure mr base maxd true f jitter).2.1.length = 2 ∧
      (retry_on_failure mr base maxd true f jitter).2.2 = 3) := by
  obtain ⟨h1, h2, h3, h4⟩ := retryGo_spec base maxd true f jitter mr 0
  have hsl : (retry_on_failure mr base maxd true f jitter).2.1 =
      (List.range (retry_on_failure mr base maxd true f jitter).2.1.length).map
        (fun i => min (base * 2 ^ i) maxd + jitter i) := by
    rw [retry_on_failure, h3]
    simp only [List.length_map, List.length_range]
    apply List.map_congr_left
    intro i hi
    simp
  refine ⟨?_, hsl, ?_, ?_, ?_⟩
  · rw [retry_on_failure, h1]
    exact Nat.succ_le_succ h2
  · intro hj i hi
    have hget : (retry_on_failure mr base maxd true f jitter).2.1.get ⟨i, hi⟩ =
        min (base * 2 ^ i) maxd + jitter i := by
      have := List.get_of_eq hsl ⟨i, hi⟩
      rw [this]
      simp [List.getElem_map]
    obtain ⟨hj0, hj1⟩ := hj i
    rw [hget]
    constructor
    · linarith
    · linarith
  · intro e he
    obtain ⟨hlen, hfe⟩ := h4 e he
    refine ⟨?_, by rw [Nat.zero_add] at hfe; exact hfe⟩
    rw [retry_on_failure, h1, hlen]
  · intro hmr e0 e1 v hf0 hf1 hf2
    subst hmr
    have : retry_on_failure 3 base maxd true f jitter =
        retryGo base maxd true f jitter 0 3 := rfl
    rw [this]
    rw [show (3 : Nat) = 2 + 1 from rfl, retryGo, hf0]
    rw [show (2 : Nat) = 1 + 1 from rfl, retryGo, hf1]
    rw [retryGo, hf2]
    exact ⟨rfl, rfl, rfl⟩

/-- Witness for C5: the concrete operation `wRetryF` fails twice then
succeeds; with `max_retries = 3` the wrapper returns the success value 7 after
exactly two sleeps and three invocations. -/
theorem claim_C5_witness :
    (retry_on_failure 3 1 60 true wRetryF (fun _ => 0)).1 = .ok 7 ∧
    (retry_on_failure 3 1 60 true wRetryF (fun _ => 0)).2.1.length = 2 ∧
    (retry_on_failure 3 1 60 true wRetryF (fun _ => 0)).2.2 = 3 :=
  (claim_C5_retry_backoff 3 1 60 wRetryF (fun _ => 0)).2.2.2.2 rfl 0 1 7 rfl rfl rfl

/-- Counterexample for C4 as stated: an exception after one character of the
dump reports failure but leaves the snapshot neither untouched nor fully
overwritten — a partial overwrite. -/
theorem claim_C4_counterexample :
    (save_alerts ("[]".toList) (some ("OLD".toList)) (.failDuring 1)).1 = false ∧
    (save_alerts ("[]".toList) (some ("OLD".toList)) (.failDuring 1)).2 ≠
      some ("OLD".toList) ∧
    (save_alerts ("[]".toList) (some ("OLD".toList)) (.failDuring 1)).2 ≠
      some ("[]".toList) := by
  refine ⟨rfl, by decide, by decide⟩

/-- C6 (amended): `wait_if_needed` prunes the requests that left the window
and, when fewer than `max_requests` remain, records the new request at `now`
without waiting; when the window is full it sleeps the fixed interval
`time_window / max_requests` once and then records unconditionally, without
re-checking — so the per-window count can exceed `max_requests`. -/
theorem claim_C6_rate_limiter (rl : RateLimiter) (now : ℚ) :
    (rl.can_request now =
      (decide ((rl.requests.filter fun t => now - t < rl.time_window).length <
        rl.max_requests),
       ⟨rl.max_requests, rl.time_window,
        rl.requests.filter fun t => now - t < rl.time_window⟩)) ∧
    ((rl.requests.filter fun t => now - t < rl.time_window).length < rl.max_requests →
      rl.wait_if_needed now =
        (⟨rl.max_requests, rl.time_window,
          (rl.requests.filter fun t => now - t < rl.time_window) ++ [now]⟩, now)) ∧
    (rl.max_requests ≤ (rl.requests.filter fun t => now - t < rl.time_window).length →
      rl.wait_if_needed now =
        (⟨rl.max_requests, rl.time_window,
          (rl.requests.filter fun t => now - t < rl.time_window) ++
            [now + rl.time_window / (rl.max_requests : ℚ)]⟩,
         now + rl.time_window / (rl.max_requests : ℚ))) := by
  refine ⟨rfl, ?_, ?_⟩
  · intro h
    simp only [RateLimiter.wait_if_needed, RateLimiter.can_request,
      RateLimiter.record_request]
    rw [if_pos (decide_eq_true h)]
  · intro h
    simp only [RateLimiter.wait_if_needed, RateLimiter.can_request,
      RateLimiter.record_request]
    rw [if_neg (fun hc => absurd (of_decide_eq_true hc) (not_lt.mpr h))]

/-- Witness for C6: on a fresh limiter the first request is recorded at once. -/
theorem claim_C6_witness :
    rlim0.wait_if_needed 0 =
      (⟨rlim0.max_requests, rlim0.time_window,
        (rlim0.requests.filter fun t => (0 : ℚ) - t < rlim0.time_window) ++ [0]⟩, 0) :=
  (claim_C6_rate_limiter rlim0 0).2.1 (by simp [rlim0])

/-- Counterexample for C6 as stated: three back-to-back requests through a
2-per-60-seconds limiter are all admitted inside one 60-second window (the
third is recorded at instant 30, when the window still holds 2 = max_requests
requests), so neither the per-window bound nor blocking-until-free holds. -/
theorem claim_C6_counterexample :
    (((rlim0.wait_if_needed 0).1.wait_if_needed 0).1.wait_if_needed 0).1.requests =
      [0, 0, 30] ∧
    requestsWithin [0, 0, 30] 0 60 = 3 ∧
    rlim0.max_requests = 2 ∧
    (((rlim0.wait_if_needed 0).1.wait_if_needed 0).1.wait_if_needed 0).2 = 30 ∧
    ((((rlim0.wait_if_needed 0).1.wait_if_needed 0).1.requests.filter
      fun t => (30 : ℚ) - t < 60).length = 2) := by
  have h1 : rlim0.wait_if_needed 0 = (⟨2, 60, [0]⟩, 0) := by
    simp only [rlim0, RateLimiter.wait_if_needed, RateLimiter.can_request,
      RateLimiter.record_request]
    norm_num
  have h2 : (⟨2, 60, [0]⟩ : RateLimiter).wait_if_needed 0 = (⟨2, 60, [0, 0]⟩, 0) := by
    simp only [RateLimiter.wait_if_needed, RateLimiter.can_request,
      RateLimiter.record_request, List.filter_cons, List.filter_nil]
    norm_num
  have h3 : (⟨2, 60, [0, 0]⟩ : RateLimiter).wait_if_needed 0 = (⟨2, 60, [0, 0, 30]⟩, 30) := by
    simp only [RateLimiter.wait_if_needed, RateLimiter.can_request,
      RateLimiter.record_request, List.filter_cons, List.filter_nil]
    norm_num
  rw [h1, h2, h3]
  refine ⟨rfl, by norm_num [requestsWithin], rfl, rfl, ?_⟩
  simp only [List.filter_cons, List.filter_nil]
  norm_num

/-- C7: the location resolver never substitutes placeholder coordinates: when
no extraction strategy matches, location, lat and lon are all left None; when
a name is extracted but absent from the gazetteer, `get_coordinates` fails
with ValueError and again all three fields are set to None; any coordinates
that do appear come from the gazetteer entry of the resolved name. -/
theorem claim_C7_no_placeholder_coordinates (gaz : List (String × ℚ × ℚ))
    (extract : Entry → Option String) :
    (∀ name : String, (gaz.find? fun kv => kv.1 = pyLower name) = none →
      get_coordinates gaz name =
        .error ("Location " ++ name ++ " not found in database")) ∧
    (∀ e : Entry, extract e = none →
      locateEntry gaz extract e = { e with location := none, lat := none, lon := none }) ∧
    (∀ (e : Entry) (name msg : String), extract e = some name →
      get_coordinates gaz name = .error msg →
      locateEntry gaz extract e = { e with location := none, lat := none, lon := none }) ∧
    (∀ (entries : List Entry) (e : Entry), e ∈ locationProcessEntries gaz extract entries →
      (e.location = none ∧ e.lat = none ∧ e.lon = none) ∨
      (∃ name c, e.location = some name ∧ e.lat = some c.1 ∧ e.lon = some c.2 ∧
        get_coordinates gaz name = .ok c)) := by
  refine ⟨?_, ?_, ?_, ?_⟩
  · intro name h
    simp [get_coordinates, h]
  · intro e h
    simp [locateEntry, h]
  · intro e name msg h1 h2
    simp [locateEntry, h1, h2]
  · intro entries e he
    rw [locationProcessEntries, List.mem_map] at he
    obtain ⟨e0, _, heq⟩ := he
    subst heq
    cases hx : extract e0 with
    | none => simp [locateEntry, hx]
    | some name =>
      cases hc : get_coordinates gaz name with
      | ok c =>
        refine Or.inr ⟨name, c, ?_, ?_, ?_, hc⟩ <;> simp [locateEntry, hx, hc]
      | error msg => simp [locateEntry, hx, hc]

/-- Witness for C7: on an entry for which the extractor finds nothing, the
fields come back unset. -/
theorem claim_C7_witness :
    locateEntry [] (fun _ => none) wEntry1 =
      { wEntry1 with location := none, lat := none, lon := none } :=
  (claim_C7_no_placeholder_coordinates [] (fun _ => none)).2.1 wEntry1 rfl

theorem dedupByKey_sublist {α : Type} (key : α → String) :
    ∀ (l : List α) (seen : List String), List.Sublist (dedupByKey key seen l) l := by
  intro l
  induction l with
  | nil => intro seen; exact List.Sublist.refl []
  | cons a rest ih =>
    intro seen
    simp only [dedupByKey]
    split
    · exact (ih seen).cons a
    · exact (ih _).cons₂ a

theorem dedupByKey_find? {α : Type} (key : α → String) :
    ∀ (l : List α) (seen : List String) (a : α), a ∈ dedupByKey key seen l →
      key a ∉ seen ∧ l.find? (fun b => key b = key a) = some a := by
  intro l
  induction l with
  | nil => intro seen a ha; simp [dedupByKey] at ha
  | cons b rest ih =>
    intro seen a ha
    simp only [dedupByKey] at ha
    by_cases hb : key b ∈ seen
    · rw [if_pos hb] at ha
      obtain ⟨hns, hf⟩ := ih seen a ha
      have hne : ¬ (key b = key a) := fun heq => hns (heq ▸ hb)
      refine ⟨hns, ?_⟩
      rw [List.find?_cons_of_neg _ (by simpa using hne)]
      exact hf
    · rw [if_neg hb] at ha
      rcases List.mem_cons.mp ha with ha | ha
      · subst ha
        exact ⟨hb, by rw [List.find?_cons_of_pos _ (by simp)]⟩
      · obtain ⟨hns, hf⟩ := ih _ a ha
        have hna : key a ∉ seen := fun h => hns (List.mem_cons_of_mem _ h)
        have hne : ¬ (key b = key a) := fun h => hns (h ▸ List.mem_cons_self _ _)
        refine ⟨hna, ?_⟩
        rw [List.find?_cons_of_neg _ (by simpa using hne)]
        exact hf

theorem dedupByKey_pairwise {α : Type} (key : α → String) :
    ∀ (l : List α) (seen : List String),
      (dedupByKey key seen l).Pairwise (fun a b => key a ≠ key b) := by
  intro l
  induction l with
  | nil => intro seen; simp [dedupByKey]
  | cons b rest ih =>
    intro seen
    simp only [dedupByKey]
    split
    · exact ih seen
    · refine List.Pairwise.cons ?_ (ih _)
      intro a ha heq
      exact (dedupByKey_find? key rest (key b :: seen) a ha).1
        (by rw [← heq]; exact List.mem_cons_self _ _)

theorem dedupByKey_covers {α : Type} (key : α → String) :
    ∀ (l : List α) (seen : List String) (a : α), a ∈ l → key a ∉ seen →
      ∃ b ∈ dedupByKey key seen l, key b = key a := by
  intro l
  induction l with
  | nil => intro seen a ha _; simp at ha
  | cons b rest ih =>
    intro seen a ha hns
    simp only [dedupByKey]
    by_cases hb : key b ∈ seen
    · rw [if_pos hb]
      rcases List.mem_cons.mp ha with ha | ha
      · exact absurd (ha ▸ hb) hns
      · exact ih seen a ha hns
    · rw [if_neg hb]
      by_cases hk : key a = key b
      · exact ⟨b, List.mem_cons_self _ _, hk.symm⟩
      · rcases List.mem_cons.mp ha with ha | ha
        · exact absurd (ha ▸ rfl) hk
        · obtain ⟨c, hc, hck⟩ := ih (key b :: seen) a ha (by
            intro h
            rcases List.mem_cons.mp h with h | h
            · exact hk h
            · exact hns h)
          exact ⟨c, List.mem_cons_of_mem _ hc, hck⟩

/-- C8 (amended): `deduplicate_alerts` keeps, for each key
`title + "_" + str(location)` — where an absent location renders as the four
characters "None", not as the empty string — only the first alert with that
key: the survivors form a subsequence of the input (order preserved), each
survivor is the first occurrence of its key, no two survivors share a key,
and every input key is represented.  Alerts with identical (title, location)
therefore still collapse to the first one. -/
theorem claim_C8_deduplicate (alerts : List Alert) :
    List.Sublist (deduplicate_alerts alerts) alerts ∧
    (∀ a ∈ deduplicate_alerts alerts,
      alerts.find? (fun b => dedupKey b = dedupKey a) = some a) ∧
    (deduplicate_alerts alerts).Pairwise (fun a b => dedupKey a ≠ dedupKey b) ∧
    (∀ a ∈ alerts, ∃ b ∈ deduplicate_alerts alerts, dedupKey b = dedupKey a) := by
  refine ⟨dedupByKey_sublist dedupKey alerts [], ?_, dedupByKey_pairwise dedupKey alerts [], ?_⟩
  · intro a ha
    exact (dedupByKey_find? dedupKey alerts [] a ha).2
  · intro a ha
    exact dedupByKey_covers dedupKey alerts [] a ha (List.not_mem_nil _)

/-- Witness for C8: a duplicated alert collapses to its first occurrence. -/
theorem claim_C8_witness :
    ∃ b ∈ deduplicate_alerts [cexAlert1, cexAlert1], dedupKey b = dedupKey cexAlert1 :=
  (claim_C8_deduplicate [cexAlert1, cexAlert1]).2.2.2 cexAlert1 (List.mem_cons_self _ _)

/-- Counterexample for C8 as stated: under the spec's key formula
`title + "_" + (location or "")` the two alerts share a key, so the second
should be dropped — but the implementation renders the absent location as
"None" and keeps both. -/
theorem claim_C8_counterexample :
    specDedupKey cexAlert1 = specDedupKey cexAlert2 ∧
    deduplicate_alerts [cexAlert1, cexAlert2] = [cexAlert1, cexAlert2] := by
  refine ⟨rfl, by decide⟩

/-- C10: a cycle that fetches no entries, or whose processing produces no
alerts, returns True without invoking `save_alerts`, leaving the persisted
snapshot file untouched. -/
theorem claim_C10_no_save_on_empty (gaz : List (String × ℚ × ℚ))
    (extract : Entry → Option String) (dump : List Alert → List Char)
    (entries : List Entry) (file : Option (List Char)) (out : WriteOutcome)
    (h : entries = [] ∨ processEntriesMain gaz extract entries = []) :
    run_single_cycle gaz extract dump entries file out = (true, file, false) := by
  rcases h with h | h
  · simp [run_single_cycle, h]
  · by_cases he : entries = []
    · simp [run_single_cycle, he]
    · simp [run_single_cycle, he, h]

/-- Witness for C10: an empty fetch leaves the snapshot untouched and reports
success. -/
theorem claim_C10_witness :
    run_single_cycle [] (fun _ => none) (fun _ => []) [] (some ("OLD".toList)) .success =
      (true, some ("OLD".toList), false) :=
  claim_C10_no_save_on_empty [] (fun _ => none) (fun _ => []) [] (some ("OLD".toList))
    .success (Or.inl rfl)

end NewsScraper
